import Mathlib

/-!
Verification of tesseract's `TFile` byte stream (src/ccutil/serialis.cpp).

Shallow embedding conventions:
* `GenericVector<char>` is a `List Nat` of byte values; the null `data_`
  pointer of a freshly constructed `TFile` is modelled as the empty list
  (no claim distinguishes the two).
* `offset_` (the cursor) is a `Nat`: the spec's data model declares the
  cursor unsigned with `0 <= cursor <= buffer.length` (the header that
  declares the field is not part of the sources).  Local `int` arithmetic
  from the C++ is kept as `Int` and converted back with `Int.toNat` at the
  single assignment `offset_ += required_size`.
* `ASSERT_HOST` failures and the null-pointer dereference inside the
  byte-swap loop are modelled as `Except` errors (`TErr`).
* External collaborators (`FileReader`/`LoadDataFromFile`, `FileWriter`/
  `SaveDataToFile`, `ftell`/`fseek`/`fread` on a `FILE*`) are passed in as
  explicit outcome parameters; `CloseWrite` returns the bytes handed to
  the saver.
* C++ `int` division truncates toward zero, hence `Int.tdiv`.
-/

namespace Tess

/-- Fatal conditions of the embedded code: `ASSERT_HOST` failure, or a
null-pointer dereference. -/
inductive TErr where
  | assertFail : TErr
  | nullDeref : TErr
deriving DecidableEq, Repr

/-- The `TFile` state: cursor, byte buffer, ownership flag, mode flag and
byte-swap flag (serialis.cpp, fields set by the constructor). -/
structure TFile where
  offset_ : Nat
  data_ : List Nat
  data_is_owned_ : Bool
  is_writing_ : Bool
  swap_ : Bool
deriving DecidableEq, Repr

/-- `TFile::TFile()`: constructed empty (null `data_` modelled as `[]`). -/
def TFile.init : TFile :=
  { offset_ := 0, data_ := [], data_is_owned_ := false,
    is_writing_ := false, swap_ := false }

/-- `TFile::Open(const STRING& filename, FileReader reader)`.
The reader (or default `LoadDataFromFile`) outcome is the parameter
`readerResult`: `some bytes` fills the buffer and returns true, `none` is
a reader failure (buffer contents then unspecified; we keep the vector the
reader was handed, which at that point holds the prior owned contents or a
fresh empty vector). -/
def TFile.OpenFromPath (t : TFile) (readerResult : Option (List Nat)) :
    Bool × TFile :=
  let d := if t.data_is_owned_ then t.data_ else []
  let t := { t with data_ := d, data_is_owned_ := true, offset_ := 0,
                    is_writing_ := false, swap_ := false }
  match readerResult with
  | none => (false, t)
  | some bytes => (true, { t with data_ := bytes })

/-- `TFile::Open(const char* data, int size)`: copies `size` bytes of
`data` into an owned buffer and returns true. -/
def TFile.OpenFromMemory (t : TFile) (data : List Nat) (size : Int) :
    Bool × TFile :=
  let d := if t.data_is_owned_ then t.data_ else []
  let t := { t with offset_ := 0, data_ := d, data_is_owned_ := true,
                    is_writing_ := false, swap_ := false }
  (true, { t with data_ := data.take size.toNat })

/-- `TFile::Open(FILE* fp, int64_t end_offset)`.  The handle interactions
are outcome parameters: `current_pos` is what `ftell(fp)` returns (negative
means failure), `seekEndFail` the failure of `fseek(fp, 0, SEEK_END)`,
`streamEnd` what `ftell` then reports, `seekBackFail` the failure of the
seek back, and `freadBytes` the bytes `fread` actually delivers.  Note the
source clears `is_writing_`/`swap_` only after the seek phase succeeds,
while `offset_ = 0` is the first statement. -/
def TFile.OpenFromHandle (t : TFile) (current_pos end_offset : Int)
    (seekEndFail : Bool) (streamEnd : Int) (seekBackFail : Bool)
    (freadBytes : List Nat) : Bool × TFile :=
  let t := { t with offset_ := 0 }
  if current_pos < 0 then (false, t)
  else if end_offset < 0 && seekEndFail then (false, t)
  else if end_offset < 0 && seekBackFail then (false, t)
  else
    let eo := if end_offset < 0 then streamEnd else end_offset
    let size := eo - current_pos
    let d := if t.data_is_owned_ then t.data_ else []
    let t := { t with is_writing_ := false, swap_ := false,
                      data_ := d, data_is_owned_ := true }
    (decide ((freadBytes.take size.toNat).length = size.toNat
              ∧ (freadBytes.length : Int) ≥ size),
     { t with data_ := freadBytes.take size.toNat })

/-- The loop of `TFile::FGets`: starting with `size` bytes already copied,
copies bytes from `data[offset]` while `size + 1 < bsize` and
`offset < data.length`, stopping after a newline (byte 10) is copied.
Returns the bytes copied by this loop and the final offset. -/
def fgetsLoop (data : List Nat) (bsize : Int) (offset size : Nat) :
    List Nat × Nat :=
  if h : (size : Int) + 1 < bsize ∧ offset < data.length then
    let c := data.get ⟨offset, h.2⟩
    if c = 10 then ([c], offset + 1)
    else
      let r := fgetsLoop data bsize (offset + 1) (size + 1)
      (c :: r.1, r.2)
  else ([], offset)
termination_by data.length - offset

/-- `TFile::FGets(char* buffer, int buffer_size)`.  Returns
`(ret, nulWritten, t')` where `ret` is `none` for the null return or
`some copied` for the filled output buffer, and `nulWritten` records
whether the terminating 0 byte was stored (`size < buffer_size`). -/
def TFile.FGets (t : TFile) (buffer_size : Int) :
    Except TErr (Option (List Nat) × Bool × TFile) :=
  if t.is_writing_ then .error .assertFail
  else
    let r := fgetsLoop t.data_ buffer_size t.offset_ 0
    let copied := r.1
    .ok (if copied.length > 0 then some copied else none,
         decide ((copied.length : Int) < buffer_size),
         { t with offset_ := r.2 })

/-- `TFile::FRead(void* buffer, int size, int count)`.  `bufNull` models a
null destination pointer; the returned list is the bytes `memcpy` stored
into the destination. -/
def TFile.FRead (t : TFile) (bufNull : Bool) (size count : Int) :
    Except TErr (Int × List Nat × TFile) :=
  if t.is_writing_ then .error .assertFail
  else
    let required_size := size * count
    if required_size ≤ 0 then .ok (0, [], t)
    else
      let required_size :=
        if (t.data_.length : Int) - (t.offset_ : Int) < required_size
        then (t.data_.length : Int) - (t.offset_ : Int)
        else required_size
      let copied :=
        if 0 < required_size ∧ bufNull = false
        then (t.data_.drop t.offset_).take required_size.toNat
        else []
      .ok (required_size.tdiv size, copied,
           { t with offset_ := ((t.offset_ : Int) + required_size).toNat })

/-- Modelled from the spec: `ReverseN` (declared in the serialisation
header, not among the sources) reverses the byte order of one `size`-byte
element; the swap loop of `FReadEndian` applies it to each of the first
`n` consecutive `size`-byte elements of the destination, element
boundaries respected. -/
def swapElems (size : Nat) : Nat → List Nat → List Nat
  | 0, l => l
  | n + 1, l => (l.take size).reverse ++ swapElems size n (l.drop size)

/-- `TFile::FReadEndian(void* buffer, int size, int count)`: `FRead`, then
if `swap_` the per-element byte reversal.  A null destination with at
least one element read makes the swap loop dereference null (modelled from
the spec: reversing an element accesses its bytes through the destination
pointer). -/
def TFile.FReadEndian (t : TFile) (bufNull : Bool) (size count : Int) :
    Except TErr (Int × List Nat × TFile) :=
  match t.FRead bufNull size count with
  | .error e => .error e
  | .ok (num_read, copied, t') =>
    if t'.swap_ then
      if bufNull then
        if 0 < num_read then .error .nullDeref else .ok (num_read, copied, t')
      else .ok (num_read, swapElems size.toNat num_read.toNat copied, t')
    else .ok (num_read, copied, t')

/-- `TFile::Rewind()`. -/
def TFile.Rewind (t : TFile) : Except TErr TFile :=
  if t.is_writing_ then .error .assertFail
  else .ok { t with offset_ := 0 }

/-- `TFile::OpenWrite(GenericVector<char>* data)`: adopt an external
buffer (borrowed) or ensure an owned one, reset cursor, enter Writing
mode, clear swap, truncate to empty. -/
def TFile.OpenWrite (t : TFile) (external : Option (List Nat)) : TFile :=
  let t := { t with offset_ := 0 }
  let t :=
    match external with
    | some d => { t with data_ := d, data_is_owned_ := false }
    | none =>
      if t.data_is_owned_ then t
      else { t with data_ := [], data_is_owned_ := true }
  { t with is_writing_ := true, swap_ := false, data_ := [] }

/-- `TFile::CloseWrite(const STRING&, FileWriter)`: asserts Writing mode,
then hands the buffer's full contents to the writer (or default
`SaveDataToFile`); the bytes passed to the saver are returned. -/
def TFile.CloseWrite (t : TFile) : Except TErr (List Nat) :=
  if t.is_writing_ = false then .error .assertFail
  else .ok t.data_

/-- `TFile::FWrite(const void* buffer, int size, int count)`: appends
`size * count` bytes of the source (`buf` lists the source bytes) with
`push_back`, returning `count`; `size * count <= 0` appends nothing and
returns 0. -/
def TFile.FWrite (t : TFile) (buf : List Nat) (size count : Int) :
    Except TErr (Int × TFile) :=
  if t.is_writing_ = false then .error .assertFail
  else
    let total := size * count
    if total ≤ 0 then .ok (0, t)
    else .ok (count, { t with data_ := t.data_ ++ buf.take total.toNat })

/-- Writes a list of fixed-size records, one `FWrite(rec, size, 1)` call
per record (the layout of claim C3). -/
def writeRecords (t : TFile) (size : Int) : List (List Nat) →
    Except TErr TFile
  | [] => .ok t
  | r :: rs =>
    match t.FWrite r size 1 with
    | .error e => .error e
    | .ok (_, t') => writeRecords t' size rs

end Tess

namespace Tess

/-- Helper: full characterization of `FRead` in Reading mode with an
in-range cursor: the byte count is `size*count` clamped to the remaining
bytes (not rounded to element boundaries), the cursor advances by exactly
that many bytes, and the return value is its truncated quotient by
`size`. -/
theorem FRead_char (t : TFile) (bufNull : Bool) (size count : Int)
    (hmode : t.is_writing_ = false)
    (hoff : t.offset_ ≤ t.data_.length) :
    t.FRead bufNull size count =
      if size * count ≤ 0 then .ok (0, [], t)
      else
        .ok ((min (size * count) ((t.data_.length : Int) - (t.offset_ : Int))).tdiv size,
             if bufNull then []
             else (t.data_.drop t.offset_).take
               (min (size * count) ((t.data_.length : Int) - (t.offset_ : Int))).toNat,
             { t with offset_ := t.offset_ +
                 (min (size * count) ((t.data_.length : Int) - (t.offset_ : Int))).toNat }) := by
  unfold TFile.FRead
  rw [hmode]
  simp only [Bool.false_eq_true, if_false]
  split
  · rfl
  · rename_i hpos
    push_neg at hpos
    have hrem : (0 : Int) ≤ (t.data_.length : Int) - (t.offset_ : Int) := by
      omega
    rcases lt_or_ge ((t.data_.length : Int) - (t.offset_ : Int)) (size * count) with h | h
    · rw [if_pos h, min_eq_right h.le]
      have hm : ((t.offset_ : Int) + ((t.data_.length : Int) - (t.offset_ : Int))).toNat
          = t.offset_ + ((t.data_.length : Int) - (t.offset_ : Int)).toNat := by omega
      rw [hm]
      rcases Bool.eq_false_or_eq_true bufNull with hb | hb <;> subst hb
      · simp
      · simp only [Bool.true_eq_false, and_false, if_false, if_true]
        rcases eq_or_lt_of_le hrem with h0 | h0
        · rw [← h0]
          simp
        · simp [h0]
    · rw [if_neg (not_lt.mpr h), min_eq_left h]
      have hm : ((t.offset_ : Int) + (size * count)).toNat
          = t.offset_ + (size * count).toNat := by omega
      rw [hm]
      rcases Bool.eq_false_or_eq_true bufNull with hb | hb <;> subst hb
      · simp [hpos]
      · simp [hpos]

/-- C1 (counterexample): on a 5-byte buffer, `FRead` of 2 elements of
size 4 copies all 5 bytes — not 4, the amount rounded down to whole
elements — and advances the cursor by 5, which is not a whole number of
elements (5 is not a multiple of the element size 4). -/
theorem FRead_C1_counterexample :
    TFile.FRead
        { offset_ := 0, data_ := [1, 2, 3, 4, 5], data_is_owned_ := true,
          is_writing_ := false, swap_ := false } false 4 2 =
      .ok (1, [1, 2, 3, 4, 5],
        { offset_ := 5, data_ := [1, 2, 3, 4, 5], data_is_owned_ := true,
          is_writing_ := false, swap_ := false }) ∧
    (5 : Nat) % 4 ≠ 0 ∧ [1, 2, 3, 4, 5] ≠ [1, 2, 3, 4] := by
  refine ⟨rfl, by decide, by decide⟩

/-- C1 (amended): in Reading mode with `elementSize > 0` and cursor in
range, `FRead` copies `min(elementSize*count, bytesRemaining)` bytes —
NOT rounded down to whole elements, so a trailing partial element is
copied too — advances the cursor by exactly that byte count (which need
not be a whole number of elements), and returns the number of whole
elements that fit in it, `copiedBytes / elementSize` truncated.  When
`elementSize*count ≤ 0` nothing is copied and 0 is returned. -/
theorem FRead_spec (t : TFile) (bufNull : Bool) (size count : Int)
    (hmode : t.is_writing_ = false) (hsize : 0 < size)
    (hoff : t.offset_ ≤ t.data_.length) :
    t.FRead bufNull size count =
      if size * count ≤ 0 then .ok (0, [], t)
      else
        .ok ((min (size * count) ((t.data_.length : Int) - (t.offset_ : Int))).tdiv size,
             if bufNull then []
             else (t.data_.drop t.offset_).take
               (min (size * count) ((t.data_.length : Int) - (t.offset_ : Int))).toNat,
             { t with offset_ := t.offset_ +
                 (min (size * count) ((t.data_.length : Int) - (t.offset_ : Int))).toNat }) :=
  FRead_char t bufNull size count hmode hoff

/-- C1 witness: the amended specification instantiated on a concrete
stream (3 bytes, element size 2, count 3: 3 bytes copied, 1 element
returned). -/
theorem FRead_spec_witness :
    TFile.FRead
        { offset_ := 0, data_ := [7, 8, 9], data_is_owned_ := true,
          is_writing_ := false, swap_ := false } false 2 3 =
      if (2 : Int) * 3 ≤ 0 then
        .ok (0, [],
          { offset_ := 0, data_ := [7, 8, 9], data_is_owned_ := true,
            is_writing_ := false, swap_ := false })
      else
        .ok ((min ((2 : Int) * 3) ((([7, 8, 9] : List Nat).length : Int) - ((0 : Nat) : Int))).tdiv 2,
             if false then []
             else (([7, 8, 9] : List Nat).drop 0).take
               (min ((2 : Int) * 3) ((([7, 8, 9] : List Nat).length : Int) - ((0 : Nat) : Int))).toNat,
             { offset_ := 0 + (min ((2 : Int) * 3) ((([7, 8, 9] : List Nat).length : Int) - ((0 : Nat) : Int))).toNat,
               data_ := [7, 8, 9], data_is_owned_ := true,
               is_writing_ := false, swap_ := false }) :=
  FRead_spec
    { offset_ := 0, data_ := [7, 8, 9], data_is_owned_ := true,
      is_writing_ := false, swap_ := false } false 2 3 rfl (by decide) (by decide)

end Tess

namespace Tess

/-- C2: in Reading mode, requesting more elements than remain
(`elementSize*count > bytesRemaining`) copies the remaining bytes,
returns the number of whole elements that fit
(`bytesRemaining / elementSize`, truncated), and leaves the cursor
exactly at the buffer end. -/
theorem FRead_clamped (t : TFile) (bufNull : Bool) (size count : Int)
    (hmode : t.is_writing_ = false) (hsize : 0 < size)
    (hoff : t.offset_ ≤ t.data_.length)
    (hover : (t.data_.length : Int) - (t.offset_ : Int) < size * count) :
    t.FRead bufNull size count =
      .ok (((t.data_.length : Int) - (t.offset_ : Int)).tdiv size,
           if bufNull then [] else t.data_.drop t.offset_,
           { t with offset_ := t.data_.length }) := by
  have hrem : (0 : Int) ≤ (t.data_.length : Int) - (t.offset_ : Int) := by omega
  have hpos : (0 : Int) < size * count := lt_of_le_of_lt hrem hover
  rw [FRead_char t bufNull size count hmode hoff, if_neg (not_le.mpr hpos),
      min_eq_right hover.le]
  have hlen : ((t.data_.length : Int) - (t.offset_ : Int)).toNat
      = t.data_.length - t.offset_ := by omega
  have htake : (t.data_.drop t.offset_).take (t.data_.length - t.offset_)
      = t.data_.drop t.offset_ := by
    apply List.take_of_length_le
    simp [List.length_drop]
  have hoff2 : t.offset_ + ((t.data_.length : Int) - (t.offset_ : Int)).toNat
      = t.data_.length := by omega
  rw [hoff2, hlen, htake]

/-- C2 witness: the spec's own example — buffer of 5 bytes, request 2
elements of size 4: 1 element returned (`floor(5/4)`), all 5 remaining
bytes copied, cursor at the buffer end 5. -/
theorem FRead_clamped_witness :
    TFile.FRead
        { offset_ := 0, data_ := [1, 2, 3, 4, 5], data_is_owned_ := true,
          is_writing_ := false, swap_ := false } false 4 2 =
      .ok (((([1, 2, 3, 4, 5] : List Nat).length : Int) - ((0 : Nat) : Int)).tdiv 4,
           if false then [] else ([1, 2, 3, 4, 5] : List Nat).drop 0,
           { offset_ := ([1, 2, 3, 4, 5] : List Nat).length, data_ := [1, 2, 3, 4, 5],
             data_is_owned_ := true, is_writing_ := false, swap_ := false }) :=
  FRead_clamped
    { offset_ := 0, data_ := [1, 2, 3, 4, 5], data_is_owned_ := true,
      is_writing_ := false, swap_ := false } false 4 2 rfl (by decide)
    (by decide) (by decide)

/-- C9 (counterexample): in Writing mode, `FWrite` with `elementSize = 0`
and `count = 5` appends nothing and returns 0, not `count = 5` — so
"for every elementSize and count ... returns count" fails. -/
theorem FWrite_C9_counterexample :
    (TFile.init.OpenWrite none).FWrite [1, 2, 3] 0 5 =
      .ok (0, TFile.init.OpenWrite none) ∧ (0 : Int) ≠ 5 :=
  ⟨rfl, by decide⟩

/-- C9 (amended): in Writing mode with `elementSize*count > 0` and a
source buffer holding at least `elementSize*count` bytes, `FWrite`
appends exactly `elementSize*count` bytes of the source to the end of the
buffer — the previous contents remain as an unchanged prefix — and
returns `count`; it never partially fails.  When `elementSize*count ≤ 0`
it appends nothing and returns 0. -/
theorem FWrite_spec (t : TFile) (buf : List Nat) (size count : Int)
    (hmode : t.is_writing_ = true) (hpos : 0 < size * count)
    (hbuf : (size * count).toNat ≤ buf.length) :
    t.FWrite buf size count =
      .ok (count, { t with data_ := t.data_ ++ buf.take (size * count).toNat }) ∧
    (buf.take (size * count).toNat).length = (size * count).toNat := by
  constructor
  · unfold TFile.FWrite
    rw [hmode]
    simp [not_le.mpr hpos]
  · rw [List.length_take]
    omega

/-- C9 witness: appending 4 bytes as one element of size 4 to an empty
write session returns 1 and the buffer holds exactly those bytes. -/
theorem FWrite_spec_witness :
    (TFile.init.OpenWrite none).FWrite [1, 2, 3, 4] 4 1 =
      .ok (1, { TFile.init.OpenWrite none with
                  data_ := (TFile.init.OpenWrite none).data_ ++
                    ([1, 2, 3, 4] : List Nat).take ((4 : Int) * 1).toNat }) ∧
    (([1, 2, 3, 4] : List Nat).take ((4 : Int) * 1).toNat).length
      = ((4 : Int) * 1).toNat :=
  FWrite_spec (TFile.init.OpenWrite none) [1, 2, 3, 4] 4 1 rfl (by decide)
    (by decide)

end Tess

namespace Tess

/-- C4: calling `FGets`, `FRead` or `Rewind` in Writing mode, or `FWrite`
or `CloseWrite` in Reading mode, hits the fatal `ASSERT_HOST`; in the
correct mode the assertion branch of each operation is unreachable (the
operation yields a value). -/
theorem mode_assertions (t : TFile) (bufNull : Bool) (size count bsize : Int)
    (buf : List Nat) :
    (t.is_writing_ = true →
      t.FGets bsize = .error .assertFail ∧
      t.FRead bufNull size count = .error .assertFail ∧
      t.Rewind = .error .assertFail ∧
      (∃ v, t.FWrite buf size count = .ok v) ∧
      (∃ v, t.CloseWrite = .ok v)) ∧
    (t.is_writing_ = false →
      t.FWrite buf size count = .error .assertFail ∧
      t.CloseWrite = .error .assertFail ∧
      (∃ v, t.FGets bsize = .ok v) ∧
      (∃ v, t.FRead bufNull size count = .ok v) ∧
      (∃ v, t.Rewind = .ok v)) := by
  constructor
  · intro h
    refine ⟨?_, ?_, ?_, ?_, ?_⟩
    · unfold TFile.FGets
      rw [h]
      rfl
    · unfold TFile.FRead
      rw [h]
      rfl
    · unfold TFile.Rewind
      rw [h]
      rfl
    · unfold TFile.FWrite
      rw [h]
      simp only [Bool.true_eq_false, if_false]
      split <;> exact ⟨_, rfl⟩
    · unfold TFile.CloseWrite
      rw [h]
      exact ⟨_, rfl⟩
  · intro h
    refine ⟨?_, ?_, ?_, ?_, ?_⟩
    · unfold TFile.FWrite
      rw [h]
      rfl
    · unfold TFile.CloseWrite
      rw [h]
      rfl
    · unfold TFile.FGets
      rw [h]
      exact ⟨_, rfl⟩
    · unfold TFile.FRead
      rw [h]
      simp only [Bool.false_eq_true, if_false]
      split
      · exact ⟨_, rfl⟩
      · exact ⟨_, rfl⟩
    · unfold TFile.Rewind
      rw [h]
      exact ⟨_, rfl⟩

/-- C4 witness: the mode contract instantiated on one Reading-mode stream
(writes fail the assertion, a read succeeds) and one Writing-mode stream
(reads fail the assertion, a write succeeds). -/
theorem mode_assertions_witness :
    TFile.FWrite
        { offset_ := 0, data_ := [5], data_is_owned_ := true,
          is_writing_ := false, swap_ := false } [1] 1 1 = .error .assertFail ∧
    (∃ v, TFile.FRead
        { offset_ := 0, data_ := [5], data_is_owned_ := true,
          is_writing_ := false, swap_ := false } false 1 1 = .ok v) ∧
    TFile.FRead
        { offset_ := 0, data_ := [5], data_is_owned_ := true,
          is_writing_ := true, swap_ := false } false 1 1 = .error .assertFail ∧
    (∃ v, TFile.FWrite
        { offset_ := 0, data_ := [5], data_is_owned_ := true,
          is_writing_ := true, swap_ := false } [1] 1 1 = .ok v) :=
  ⟨((mode_assertions
      { offset_ := 0, data_ := [5], data_is_owned_ := true,
        is_writing_ := false, swap_ := false } false 1 1 1 [1]).2 rfl).1,
   ((mode_assertions
      { offset_ := 0, data_ := [5], data_is_owned_ := true,
        is_writing_ := false, swap_ := false } false 1 1 1 [1]).2 rfl).2.2.2.1,
   ((mode_assertions
      { offset_ := 0, data_ := [5], data_is_owned_ := true,
        is_writing_ := true, swap_ := false } false 1 1 1 [1]).1 rfl).2.1,
   ((mode_assertions
      { offset_ := 0, data_ := [5], data_is_owned_ := true,
        is_writing_ := true, swap_ := false } false 1 1 1 [1]).1 rfl).2.2.2.1⟩

/-- C7 (counterexample): `OpenFromHandle` on a stream whose swap flag is
set, failing at the initial `ftell` (`current_pos = -1`), returns false
with the cursor reset to 0 but the swap flag still true — the failure
path returns before `swap_ = false` is executed. -/
theorem Open_C7_counterexample :
    TFile.OpenFromHandle
        { offset_ := 3, data_ := [], data_is_owned_ := true,
          is_writing_ := false, swap_ := true } (-1) 5 false 0 false [] =
      (false,
       { offset_ := 0, data_ := [], data_is_owned_ := true,
         is_writing_ := false, swap_ := true }) ∧
    (true : Bool) ≠ false :=
  ⟨rfl, by decide⟩

/-- C7 (amended): every Open-style call resets the cursor to 0 on all
paths, failure paths included.  `OpenFromPath` and `OpenFromMemory` also
clear the swap flag on all paths, but `OpenFromHandle` clears it only
once the ftell/fseek phase has passed (in particular whenever it
succeeds); on an ftell/fseek failure it returns with the swap flag
untouched. -/
theorem Open_resets (t : TFile) (readerResult : Option (List Nat))
    (data : List Nat) (sz current_pos end_offset : Int)
    (seekEndFail : Bool) (streamEnd : Int) (seekBackFail : Bool)
    (freadBytes : List Nat) :
    ((t.OpenFromPath readerResult).2.offset_ = 0 ∧
     (t.OpenFromPath readerResult).2.swap_ = false) ∧
    ((t.OpenFromMemory data sz).2.offset_ = 0 ∧
     (t.OpenFromMemory data sz).2.swap_ = false) ∧
    (t.OpenFromHandle current_pos end_offset seekEndFail streamEnd
        seekBackFail freadBytes).2.offset_ = 0 ∧
    (¬ current_pos < 0 → ¬ (end_offset < 0 ∧ seekEndFail = true) →
      ¬ (end_offset < 0 ∧ seekBackFail = true) →
      (t.OpenFromHandle current_pos end_offset seekEndFail streamEnd
          seekBackFail freadBytes).2.swap_ = false) ∧
    ((t.OpenFromHandle current_pos end_offset seekEndFail streamEnd
        seekBackFail freadBytes).1 = true →
      (t.OpenFromHandle current_pos end_offset seekEndFail streamEnd
          seekBackFail freadBytes).2.swap_ = false) := by
  refine ⟨⟨?_, ?_⟩, ⟨rfl, rfl⟩, ?_, ?_, ?_⟩
  · unfold TFile.OpenFromPath
    cases readerResult <;> rfl
  · unfold TFile.OpenFromPath
    cases readerResult <;> rfl
  · unfold TFile.OpenFromHandle
    split
    · rfl
    · split
      · rfl
      · split
        · rfl
        · rfl
  · intro h1 h2 h3
    unfold TFile.OpenFromHandle
    rw [if_neg h1, if_neg (by simpa using h2), if_neg (by simpa using h3)]
  · intro hs
    unfold TFile.OpenFromHandle at hs ⊢
    by_cases h1 : current_pos < 0
    · rw [if_pos h1] at hs
      exact absurd hs (by simp)
    · rw [if_neg h1] at hs ⊢
      by_cases h2 : (end_offset < 0 && seekEndFail) = true
      · rw [if_pos h2] at hs
        exact absurd hs (by simp)
      · rw [if_neg h2] at hs ⊢
        by_cases h3 : (end_offset < 0 && seekBackFail) = true
        · rw [if_pos h3] at hs
          exact absurd hs (by simp)
        · rw [if_neg h3]

/-- C7 witness: a concrete Reading-mode stream with swap set: the
memory-open resets cursor and swap, and a successful handle-open
(`current_pos = 0`, `end_offset = 2`) clears the swap flag. -/
theorem Open_resets_witness :
    ((({ offset_ := 3, data_ := [7], data_is_owned_ := true,
         is_writing_ := false, swap_ := true } : TFile).OpenFromMemory
        [1, 2] 2).2.offset_ = 0 ∧
     (({ offset_ := 3, data_ := [7], data_is_owned_ := true,
         is_writing_ := false, swap_ := true } : TFile).OpenFromMemory
        [1, 2] 2).2.swap_ = false) ∧
    (¬ (0 : Int) < 0 → ¬ ((2 : Int) < 0 ∧ false = true) →
      ¬ ((2 : Int) < 0 ∧ false = true) →
      (({ offset_ := 3, data_ := [7], data_is_owned_ := true,
          is_writing_ := false, swap_ := true } : TFile).OpenFromHandle
          0 2 false 0 false [1, 2]).2.swap_ = false) :=
  ⟨(Open_resets
      { offset_ := 3, data_ := [7], data_is_owned_ := true,
        is_writing_ := false, swap_ := true } none [1, 2] 2 0 2 false 0 false
      [1, 2]).2.1,
   (Open_resets
      { offset_ := 3, data_ := [7], data_is_owned_ := true,
        is_writing_ := false, swap_ := true } none [1, 2] 2 0 2 false 0 false
      [1, 2]).2.2.2.1⟩

end Tess

namespace Tess

/-- C10: with the swap flag set, a null destination and at least one
whole element remaining before the cursor end, `FReadEndian` reaches the
null dereference in its swap loop, while `FRead` itself tolerates the
null destination: it copies nothing and just advances the cursor. -/
theorem FReadEndian_null_dest (t : TFile) (size count : Int)
    (hmode : t.is_writing_ = false) (hswap : t.swap_ = true)
    (hsize : 0 < size) (hcount : 1 ≤ count)
    (hrem : t.offset_ + size.toNat ≤ t.data_.length) :
    t.FReadEndian true size count = .error .nullDeref ∧
    t.FRead true size count =
      .ok ((min (size * count) ((t.data_.length : Int) - (t.offset_ : Int))).tdiv size,
           [],
           { t with offset_ := t.offset_ +
               (min (size * count) ((t.data_.length : Int) - (t.offset_ : Int))).toNat }) := by
  have hoff : t.offset_ ≤ t.data_.length := by omega
  have hsc : (0 : Int) < size * count :=
    mul_pos hsize (lt_of_lt_of_le zero_lt_one hcount)
  have hFR := FRead_char t true size count hmode hoff
  rw [if_neg (not_le.mpr hsc)] at hFR
  simp only [if_true] at hFR
  have hms : size ≤ min (size * count) ((t.data_.length : Int) - (t.offset_ : Int)) := by
    refine le_min ?_ (by omega)
    exact le_mul_of_one_le_right hsize.le hcount
  have hnum :
      1 ≤ (min (size * count) ((t.data_.length : Int) - (t.offset_ : Int))).tdiv size := by
    rw [Int.tdiv_eq_ediv (le_trans hsize.le hms) hsize.le]
    rw [Int.le_ediv_iff_mul_le hsize]
    simpa using hms
  refine ⟨?_, hFR⟩
  unfold TFile.FReadEndian
  rw [hFR]
  have hsw : (({ t with offset_ := t.offset_ +
      (min (size * count) ((t.data_.length : Int) - (t.offset_ : Int))).toNat } : TFile)).swap_
      = true := hswap
  simp only [hsw, if_true, if_pos (lt_of_lt_of_le zero_lt_one hnum), hswap]

/-- C10 witness: a 4-byte swap-enabled stream read with a null
destination, element size 2, count 1: `FReadEndian` dereferences null,
`FRead` skips 2 bytes. -/
theorem FReadEndian_null_dest_witness :
    TFile.FReadEndian
        { offset_ := 0, data_ := [1, 2, 3, 4], data_is_owned_ := true,
          is_writing_ := false, swap_ := true } true 2 1 = .error .nullDeref ∧
    TFile.FRead
        { offset_ := 0, data_ := [1, 2, 3, 4], data_is_owned_ := true,
          is_writing_ := false, swap_ := true } true 2 1 =
      .ok ((min ((2 : Int) * 1) ((([1, 2, 3, 4] : List Nat).length : Int) - ((0 : Nat) : Int))).tdiv 2,
           [],
           { offset_ := 0 + (min ((2 : Int) * 1)
               ((([1, 2, 3, 4] : List Nat).length : Int) - ((0 : Nat) : Int))).toNat,
             data_ := [1, 2, 3, 4], data_is_owned_ := true,
             is_writing_ := false, swap_ := true }) :=
  FReadEndian_null_dest
    { offset_ := 0, data_ := [1, 2, 3, 4], data_is_owned_ := true,
      is_writing_ := false, swap_ := true } 2 1 rfl rfl (by decide) (by decide)
    (by decide)

end Tess

namespace Tess

/-- Helper: the final cursor of the `FGets` loop never exceeds the buffer
length when it starts within it. -/
theorem fgetsLoop_offset_le (data : List Nat) (bsize : Int) :
    ∀ offset size, offset ≤ data.length →
      (fgetsLoop data bsize offset size).2 ≤ data.length := by
  intro offset size
  induction offset, size using fgetsLoop.induct data bsize with
  | case1 offset size h c hc =>
    intro _
    rw [fgetsLoop, dif_pos h]
    simp only [if_pos hc]
    exact h.2
  | case2 offset size h c hc ih =>
    intro _
    rw [fgetsLoop, dif_pos h]
    simp only [if_neg hc]
    exact ih (by omega)
  | case3 offset size h =>
    intro hoff
    rw [fgetsLoop, dif_neg h]
    exact hoff

/-- Helper: the `FGets` loop copies nothing exactly when its guard fails
at entry (no room before the terminator, or no byte left). -/
theorem fgetsLoop_nil_iff (data : List Nat) (bsize : Int) (offset size : Nat) :
    (fgetsLoop data bsize offset size).1 = [] ↔
      ¬((size : Int) + 1 < bsize ∧ offset < data.length) := by
  by_cases h : (size : Int) + 1 < bsize ∧ offset < data.length
  · rw [fgetsLoop, dif_pos h]
    simp only [h, not_true_eq_false, iff_false]
    split <;> simp
  · rw [fgetsLoop, dif_neg h]
    simp [h]

/-- Helper: the `FGets` loop stops at `bsize - 1` copied bytes, so the
terminating 0 byte always fits. -/
theorem fgetsLoop_len_le (data : List Nat) (bsize : Int) :
    ∀ offset size, ((fgetsLoop data bsize offset size).1.length : Int) + size ≤
      max (bsize - 1) (size : Int) := by
  intro offset size
  induction offset, size using fgetsLoop.induct data bsize with
  | case1 offset size h c hc =>
    rw [fgetsLoop, dif_pos h]
    simp only [if_pos hc, List.length_cons, List.length_nil]
    have := h.1
    push_cast
    omega
  | case2 offset size h c hc ih =>
    rw [fgetsLoop, dif_pos h]
    simp only [if_neg hc, List.length_cons]
    have h1 := h.1
    push_cast at ih ⊢
    omega
  | case3 offset size h =>
    rw [fgetsLoop, dif_neg h]
    simp

/-- Helper: in Reading mode with an in-range cursor, an `FRead` result
state keeps the buffer and a cursor within it. -/
theorem FRead_result_state (t : TFile) (bufNull : Bool) (size count : Int)
    (hmode : t.is_writing_ = false) (hoff : t.offset_ ≤ t.data_.length)
    (n : Int) (copied : List Nat) (t2 : TFile)
    (h : t.FRead bufNull size count = .ok (n, copied, t2)) :
    t2.data_ = t.data_ ∧ t2.offset_ ≤ t2.data_.length := by
  rw [FRead_char t bufNull size count hmode hoff] at h
  by_cases hsc : size * count ≤ 0
  · rw [if_pos hsc] at h
    simp only [Except.ok.injEq, Prod.mk.injEq] at h
    obtain ⟨-, -, h3⟩ := h
    subst h3
    exact ⟨rfl, hoff⟩
  · rw [if_neg hsc] at h
    simp only [Except.ok.injEq, Prod.mk.injEq] at h
    obtain ⟨-, -, h3⟩ := h
    subst h3
    refine ⟨rfl, ?_⟩
    have hmin := min_le_right (size * count) ((t.data_.length : Int) - (t.offset_ : Int))
    simp only []
    omega

/-- Helper: `FReadEndian` results inherit the `FRead` state bound. -/
theorem FReadEndian_result_state (t : TFile) (bufNull : Bool) (size count : Int)
    (hmode : t.is_writing_ = false) (hoff : t.offset_ ≤ t.data_.length)
    (n : Int) (copied : List Nat) (t2 : TFile)
    (h : t.FReadEndian bufNull size count = .ok (n, copied, t2)) :
    t2.data_ = t.data_ ∧ t2.offset_ ≤ t2.data_.length := by
  unfold TFile.FReadEndian at h
  cases hF : t.FRead bufNull size count with
  | error e =>
    rw [hF] at h
    exact absurd h (by simp)
  | ok v =>
    obtain ⟨a, b, c⟩ := v
    rw [hF] at h
    have hc := FRead_result_state t bufNull size count hmode hoff a b c hF
    dsimp only [] at h
    split at h
    · split at h
      · split at h
        · exact absurd h (by simp)
        · simp only [Except.ok.injEq, Prod.mk.injEq] at h
          obtain ⟨-, -, h3⟩ := h
          subst h3
          exact hc
      · simp only [Except.ok.injEq, Prod.mk.injEq] at h
        obtain ⟨-, -, h3⟩ := h
        subst h3
        exact hc
    · simp only [Except.ok.injEq, Prod.mk.injEq] at h
      obtain ⟨-, -, h3⟩ := h
      subst h3
      exact hc

/-- C8: in Reading mode, starting from any state with
`cursor ≤ buffer.length`, each read operation (`FRead`, `FReadEndian`,
`FGets`, `Rewind`) leaves the buffer unchanged and the cursor still
within it: reads clamp to the available bytes instead of overrunning. -/
theorem reading_cursor_invariant (t : TFile) (bufNull : Bool)
    (size count bsize : Int)
    (hmode : t.is_writing_ = false) (hoff : t.offset_ ≤ t.data_.length) :
    (∀ n copied t2, t.FRead bufNull size count = .ok (n, copied, t2) →
      t2.data_ = t.data_ ∧ t2.offset_ ≤ t2.data_.length) ∧
    (∀ n copied t2, t.FReadEndian bufNull size count = .ok (n, copied, t2) →
      t2.data_ = t.data_ ∧ t2.offset_ ≤ t2.data_.length) ∧
    (∀ ret nul t2, t.FGets bsize = .ok (ret, nul, t2) →
      t2.data_ = t.data_ ∧ t2.offset_ ≤ t2.data_.length) ∧
    (∀ t2, t.Rewind = .ok t2 →
      t2.data_ = t.data_ ∧ t2.offset_ ≤ t2.data_.length) := by
  refine ⟨fun n copied t2 h => FRead_result_state t bufNull size count hmode hoff n copied t2 h,
          fun n copied t2 h => FReadEndian_result_state t bufNull size count hmode hoff n copied t2 h,
          ?_, ?_⟩
  · intro ret nul t2 h
    unfold TFile.FGets at h
    rw [hmode] at h
    simp only [Bool.false_eq_true, if_false, Except.ok.injEq, Prod.mk.injEq] at h
    obtain ⟨-, -, h3⟩ := h
    subst h3
    exact ⟨rfl, fgetsLoop_offset_le t.data_ bsize t.offset_ 0 hoff⟩
  · intro t2 h
    unfold TFile.Rewind at h
    rw [hmode] at h
    simp only [Bool.false_eq_true, if_false, Except.ok.injEq] at h
    subst h
    exact ⟨rfl, Nat.zero_le _⟩

/-- C8 witness: the invariant applied to a concrete clamped read — the
5-byte stream read past its end lands exactly on the buffer end. -/
theorem reading_cursor_invariant_witness :
    ([1, 2, 3, 4, 5] : List Nat) = [1, 2, 3, 4, 5] ∧
    (5 : Nat) ≤ ([1, 2, 3, 4, 5] : List Nat).length :=
  (reading_cursor_invariant
      { offset_ := 0, data_ := [1, 2, 3, 4, 5], data_is_owned_ := true,
        is_writing_ := false, swap_ := false } false 4 2 10 rfl
      (by decide)).1 1 [1, 2, 3, 4, 5]
    { offset_ := 5, data_ := [1, 2, 3, 4, 5], data_is_owned_ := true,
      is_writing_ := false, swap_ := false } rfl

end Tess

namespace Tess

/-- C5: in Reading mode, `FGets` always stops at `maxSize - 1` copied
bytes, so whenever `maxSize ≥ 1` the terminating 0 byte is written within
the output buffer; it returns null exactly when zero bytes could be
copied — no room before the terminator (`maxSize ≤ 1`) or cursor at the
end of the data — and otherwise returns the (nonempty) output buffer. -/
theorem FGets_spec (t : TFile) (bsize : Int)
    (hmode : t.is_writing_ = false)
    (ret : Option (List Nat)) (nul : Bool) (t2 : TFile)
    (heq : t.FGets bsize = .ok (ret, nul, t2)) :
    (ret = none ↔ (bsize ≤ 1 ∨ t.data_.length ≤ t.offset_)) ∧
    (1 ≤ bsize → nul = true) ∧
    (∀ bs, ret = some bs → bs ≠ [] ∧ (bs.length : Int) ≤ bsize - 1) := by
  unfold TFile.FGets at heq
  rw [hmode] at heq
  simp only [Bool.false_eq_true, if_false, Except.ok.injEq, Prod.mk.injEq] at heq
  obtain ⟨h1, h2, -⟩ := heq
  subst h1
  subst h2
  have hiff : (fgetsLoop t.data_ bsize t.offset_ 0).1 = [] ↔
      (bsize ≤ 1 ∨ t.data_.length ≤ t.offset_) := by
    rw [fgetsLoop_nil_iff]
    push_cast
    omega
  have hlenle := fgetsLoop_len_le t.data_ bsize t.offset_ 0
  push_cast at hlenle
  refine ⟨?_, ?_, ?_⟩
  · by_cases hL : (fgetsLoop t.data_ bsize t.offset_ 0).1 = []
    · simp [hL, hiff.mp hL]
    · have hpos : 0 < (fgetsLoop t.data_ bsize t.offset_ 0).1.length :=
        List.length_pos.mpr hL
      rw [if_pos hpos]
      simp only [reduceCtorEq, false_iff]
      rw [← hiff]
      exact hL
  · intro hb
    have hmax : max (bsize - 1) (0 : Int) = bsize - 1 := max_eq_left (by omega)
    rw [hmax] at hlenle
    simp only [decide_eq_true_eq]
    omega
  · intro bs hbs
    by_cases hpos : 0 < (fgetsLoop t.data_ bsize t.offset_ 0).1.length
    · rw [if_pos hpos] at hbs
      have hbs2 : bs = (fgetsLoop t.data_ bsize t.offset_ 0).1 :=
        (Option.some.inj hbs).symm
      rw [hbs2]
      have hne : (fgetsLoop t.data_ bsize t.offset_ 0).1 ≠ [] :=
        List.length_pos.mp hpos
      refine ⟨hne, ?_⟩
      by_cases hg : ((0 : Nat) : Int) + 1 < bsize ∧ t.offset_ < t.data_.length
      · have h1 := hg.1
        push_cast at h1
        have hmax : max (bsize - 1) (0 : Int) = bsize - 1 := max_eq_left (by omega)
        rw [hmax] at hlenle
        omega
      · exact absurd ((fgetsLoop_nil_iff t.data_ bsize t.offset_ 0).mpr hg) hne
    · rw [if_neg hpos] at hbs
      exact absurd hbs (by simp)

/-- C5 witness: the spec's line-read example — bytes `"ab\ncd"` read with
a 10-byte output buffer returns `"ab\n"`, null-terminated, and the
equivalences instantiated there. -/
theorem FGets_spec_witness :
    ((some [97, 98, 10] : Option (List Nat)) = none ↔
      ((10 : Int) ≤ 1 ∨ ([97, 98, 10, 99, 100] : List Nat).length ≤ (0 : Nat))) ∧
    ((1 : Int) ≤ 10 → true = true) ∧
    (∀ bs, (some [97, 98, 10] : Option (List Nat)) = some bs →
      bs ≠ [] ∧ (bs.length : Int) ≤ 10 - 1) :=
  FGets_spec
    { offset_ := 0, data_ := [97, 98, 10, 99, 100], data_is_owned_ := true,
      is_writing_ := false, swap_ := false } 10 rfl
    (some [97, 98, 10]) true
    { offset_ := 3, data_ := [97, 98, 10, 99, 100], data_is_owned_ := true,
      is_writing_ := false, swap_ := false }
    (by simp [TFile.FGets, fgetsLoop])

end Tess

namespace Tess

/-- Helper: `FWrite` of one record of exactly `s` bytes appends it. -/
theorem FWrite_one (t : TFile) (r : List Nat) (s : Int)
    (hs : 0 < s) (hw : t.is_writing_ = true) (hr : r.length = s.toNat) :
    t.FWrite r s 1 = .ok (1, { t with data_ := t.data_ ++ r }) := by
  unfold TFile.FWrite
  rw [hw]
  simp only [Bool.true_eq_false, if_false]
  rw [mul_one, if_neg (by omega)]
  rw [List.take_of_length_le (le_of_eq hr)]

/-- Helper: writing a list of `s`-byte records one `FWrite` call each
appends their concatenation. -/
theorem writeRecords_char (s : Int) (hs : 0 < s) :
    ∀ (recs : List (List Nat)) (t : TFile), t.is_writing_ = true →
      (∀ r ∈ recs, r.length = s.toNat) →
      writeRecords t s recs = .ok { t with data_ := t.data_ ++ recs.flatten } := by
  intro recs
  induction recs with
  | nil =>
    intro t hw _
    simp [writeRecords]
  | cons r rs ih =>
    intro t hw hlen
    rw [writeRecords,
        FWrite_one t r s hs hw (hlen r (List.mem_cons_self r rs))]
    dsimp only
    rw [ih { t with data_ := t.data_ ++ r } hw
        (fun x hx => hlen x (List.mem_cons_of_mem r hx))]
    simp

/-- Helper: the concatenation of records of constant length `s` has
length `count * s`. -/
theorem join_length_const (s : Nat) : ∀ (recs : List (List Nat)),
    (∀ r ∈ recs, r.length = s) → recs.flatten.length = recs.length * s := by
  intro recs
  induction recs with
  | nil => simp
  | cons r rs ih =>
    intro h
    simp only [List.flatten_cons, List.length_append, List.length_cons]
    rw [h r (List.mem_cons_self r rs),
        ih (fun x hx => h x (List.mem_cons_of_mem r hx))]
    ring

/-- C3: round trip — writing any sequence of fixed-size (`s`-byte)
records via `FWrite` in a fresh write session yields exactly their
concatenation; `CloseWrite` hands those bytes to the saver; opening them
for reading and reading the same layout back with `FRead` reproduces the
original bytes exactly and returns the full record count. -/
theorem write_read_roundtrip (t0 : TFile) (recs : List (List Nat)) (s : Int)
    (hs : 0 < s) (hlen : ∀ r ∈ recs, r.length = s.toNat) :
    ∃ t1, writeRecords (t0.OpenWrite none) s recs = .ok t1 ∧
      t1.CloseWrite = .ok recs.flatten ∧
      (TFile.init.OpenFromMemory recs.flatten (recs.flatten.length : Int)).2.FRead
          false s (recs.length : Int) =
        .ok ((recs.length : Int), recs.flatten,
          { (TFile.init.OpenFromMemory recs.flatten (recs.flatten.length : Int)).2 with
              offset_ := recs.flatten.length }) := by
  have hw : (t0.OpenWrite none).is_writing_ = true := rfl
  refine ⟨_, writeRecords_char s hs recs (t0.OpenWrite none) hw hlen, ?_, ?_⟩
  · have hd : (t0.OpenWrite none).data_ = [] := rfl
    unfold TFile.CloseWrite
    simp [hw, hd]
  · have ht2eq : (TFile.init.OpenFromMemory recs.flatten (recs.flatten.length : Int)).2
        = { offset_ := 0, data_ := recs.flatten, data_is_owned_ := true,
            is_writing_ := false, swap_ := false } := by
      unfold TFile.OpenFromMemory TFile.init
      simp only [Bool.false_eq_true, if_false, Int.toNat_natCast, List.take_length]
    rw [ht2eq]
    have hjoin : recs.flatten.length = recs.length * s.toNat :=
      join_length_const s.toNat recs hlen
    by_cases hnil : recs = []
    · subst hnil
      unfold TFile.FRead
      norm_num
    · have hN : 0 < recs.length := List.length_pos.mpr hnil
      have hsc : (0 : Int) < s * (recs.length : Int) :=
        mul_pos hs (by exact_mod_cast hN)
      have hlenInt : ((recs.flatten.length : Nat) : Int) = s * (recs.length : Int) := by
        rw [hjoin]
        push_cast [Int.toNat_of_nonneg hs.le]
        ring
      rw [FRead_char _ false s (recs.length : Int) rfl (Nat.zero_le _)]
      rw [if_neg (not_le.mpr hsc)]
      have hrem : ((recs.flatten.length : Int) - (((0 : Nat) : Int))) = s * (recs.length : Int) := by
        rw [hlenInt]
        ring
      rw [hrem, min_self]
      have htdiv : (s * (recs.length : Int)).tdiv s = (recs.length : Int) := by
        rw [Int.mul_tdiv_cancel_left _ (ne_of_gt hs)]
      have htoNat : (s * (recs.length : Int)).toNat = recs.flatten.length := by
        omega
      rw [htdiv, htoNat]
      simp

/-- C3 witness: two 2-byte records `[1,2]`, `[3,4]` written, closed, and
read back through a memory open reproduce `[1,2,3,4]` exactly. -/
theorem write_read_roundtrip_witness :
    ∃ t1, writeRecords (TFile.init.OpenWrite none) 2 [[1, 2], [3, 4]] = .ok t1 ∧
      t1.CloseWrite = .ok ([[1, 2], [3, 4]] : List (List Nat)).flatten ∧
      (TFile.init.OpenFromMemory ([[1, 2], [3, 4]] : List (List Nat)).flatten
          ((([[1, 2], [3, 4]] : List (List Nat)).flatten.length : Nat) : Int)).2.FRead
          false 2 ((([[1, 2], [3, 4]] : List (List Nat)).length : Nat) : Int) =
        .ok (((([[1, 2], [3, 4]] : List (List Nat)).length : Nat) : Int),
          ([[1, 2], [3, 4]] : List (List Nat)).flatten,
          { (TFile.init.OpenFromMemory ([[1, 2], [3, 4]] : List (List Nat)).flatten
              ((([[1, 2], [3, 4]] : List (List Nat)).flatten.length : Nat) : Int)).2 with
              offset_ := ([[1, 2], [3, 4]] : List (List Nat)).flatten.length }) :=
  write_read_roundtrip TFile.init [[1, 2], [3, 4]] 2 (by decide) (by decide)

end Tess

namespace Tess

/-- Helper: swapping elements of the empty list gives the empty list. -/
theorem swapElems_nil (s : Nat) : ∀ n, swapElems s n [] = [] := by
  intro n
  induction n with
  | zero => rfl
  | succ n ih =>
    show (([] : List Nat).take s).reverse ++ swapElems s n (([] : List Nat).drop s) = []
    simp [ih]

/-- Helper: a list no longer than one element swaps to its reversal. -/
theorem swapElems_succ_short (s n : Nat) (l : List Nat) (h : l.length ≤ s) :
    swapElems s (n + 1) l = l.reverse := by
  show (l.take s).reverse ++ swapElems s n (l.drop s) = l.reverse
  rw [List.take_of_length_le h, List.drop_eq_nil_of_le h, swapElems_nil,
      List.append_nil]

/-- Helper: the per-element byte swap is an involution. -/
theorem swapElems_swapElems (s : Nat) :
    ∀ n (l : List Nat), swapElems s n (swapElems s n l) = l := by
  intro n
  induction n with
  | zero => intro l; rfl
  | succ n ih =>
    intro l
    by_cases hl : s ≤ l.length
    · have hA : ((l.take s).reverse).length = s := by
        simp [List.length_take, hl]
      show swapElems s (n + 1)
          ((l.take s).reverse ++ swapElems s n (l.drop s)) = l
      conv_lhs =>
        rw [swapElems]
      rw [List.take_left' hA, List.drop_left' hA, List.reverse_reverse]
      rw [ih (l.drop s)]
      exact List.take_append_drop s l
    · push_neg at hl
      rw [swapElems_succ_short s n l hl.le,
          swapElems_succ_short s n l.reverse (by simpa using hl.le),
          List.reverse_reverse]

/-- Helper: swapping a concatenation of `s`-byte elements reverses each
element in place — element boundaries are respected. -/
theorem swapElems_flatten (s : Nat) :
    ∀ recs : List (List Nat), (∀ r ∈ recs, r.length = s) →
      swapElems s recs.length recs.flatten = (recs.map List.reverse).flatten := by
  intro recs
  induction recs with
  | nil => intro _; rfl
  | cons r rs ih =>
    intro h
    have hr : r.length = s := h r (List.mem_cons_self r rs)
    show swapElems s (rs.length + 1) (r ++ rs.flatten) =
      ((r :: rs).map List.reverse).flatten
    conv_lhs =>
      rw [swapElems]
    rw [List.take_left' hr, List.drop_left' hr]
    rw [ih (fun x hx => h x (List.mem_cons_of_mem r hx))]
    simp

/-- C6: writing a multi-byte value with the swap flag clear and reading
it back through `FReadEndian` with the swap flag set yields the
byte-reversed value; the per-element swap applied twice is the identity;
and swapping a sequence of fixed-size elements reverses each element
independently, never crossing element boundaries. -/
theorem endian_swap_properties :
    (∀ bs : List Nat, 0 < bs.length →
      (TFile.init.OpenWrite none).FWrite bs ((bs.length : Nat) : Int) 1 =
        .ok (1, { TFile.init.OpenWrite none with data_ := bs }) ∧
      ({ TFile.init.OpenWrite none with data_ := bs } : TFile).CloseWrite =
        .ok bs ∧
      ({ (TFile.init.OpenFromMemory bs ((bs.length : Nat) : Int)).2 with
          swap_ := true } : TFile).FReadEndian false ((bs.length : Nat) : Int) 1 =
        .ok (1, bs.reverse,
          { (TFile.init.OpenFromMemory bs ((bs.length : Nat) : Int)).2 with
              swap_ := true, offset_ := bs.length })) ∧
    (∀ (s n : Nat) (l : List Nat), swapElems s n (swapElems s n l) = l) ∧
    (∀ (s : Nat) (recs : List (List Nat)), (∀ r ∈ recs, r.length = s) →
      swapElems s recs.length recs.flatten = (recs.map List.reverse).flatten) := by
  refine ⟨?_, swapElems_swapElems, swapElems_flatten⟩
  intro bs hbs
  have hlen0 : ((bs.length : Nat) : Int) ≠ 0 := by
    simpa using Nat.pos_iff_ne_zero.mp hbs
  have hw : (TFile.init.OpenWrite none).is_writing_ = true := rfl
  have hW := FWrite_one (TFile.init.OpenWrite none) bs ((bs.length : Nat) : Int)
    (by exact_mod_cast hbs) hw (by simp)
  refine ⟨hW, rfl, ?_⟩
  have hopen : (TFile.init.OpenFromMemory bs ((bs.length : Nat) : Int)).2
      = { offset_ := 0, data_ := bs, data_is_owned_ := true,
          is_writing_ := false, swap_ := false } := by
    unfold TFile.OpenFromMemory TFile.init
    simp only [Bool.false_eq_true, if_false, Int.toNat_natCast, List.take_length]
  rw [hopen]
  have hFR := FRead_char
    { offset_ := 0, data_ := bs, data_is_owned_ := true,
      is_writing_ := false, swap_ := true } false ((bs.length : Nat) : Int) 1
    rfl (Nat.zero_le _)
  rw [if_neg (not_le.mpr (by rw [mul_one]; exact Int.natCast_pos.mpr hbs))] at hFR
  rw [mul_one] at hFR
  simp only [Nat.cast_ofNat, CharP.cast_eq_zero, Nat.cast_zero, sub_zero] at hFR
  rw [min_self, Int.tdiv_self hlen0, Int.toNat_natCast, List.drop_zero,
      List.take_length] at hFR
  unfold TFile.FReadEndian
  rw [hFR]
  dsimp only
  have hswap1 : swapElems bs.length 1 bs = bs.reverse := by
    show (bs.take bs.length).reverse ++ swapElems bs.length 0 (bs.drop bs.length)
      = bs.reverse
    rw [List.take_length, List.drop_length, swapElems_nil, List.append_nil]
  simp [hswap1]

/-- C6 witness: the 2-byte value `[1,2]` written with swap clear, and the
double swap of `[1,2,3,4]` as two 2-byte elements returning it intact. -/
theorem endian_swap_properties_witness :
    ((0 : Nat) < ([1, 2] : List Nat).length ∧
      (TFile.init.OpenWrite none).FWrite [1, 2]
          ((([1, 2] : List Nat).length : Nat) : Int) 1 =
        .ok (1, { TFile.init.OpenWrite none with data_ := [1, 2] })) ∧
    swapElems 2 2 (swapElems 2 2 [1, 2, 3, 4]) = [1, 2, 3, 4] :=
  ⟨⟨by decide, (endian_swap_properties.1 [1, 2] (by decide)).1⟩,
   endian_swap_properties.2.1 2 2 [1, 2, 3, 4]⟩

end Tess
